import Mathlib

/-!
Verification development for the siun package-update urgency evaluator.

The definitions below are a shallow embedding of the Python sources:
`src/siun/state.py` (class `Updates`, `_load_user_criteria`, `StateDecoder`,
`read_state`, `persist_state`), `src/siun/criteria.py` (the builtin
criterion classes) and `src/siun/config.py` (the `criteria` validator).
Python dicts are embedded as association lists in insertion order
(assignment replaces the value of the first matching key in place,
otherwise appends), exceptions become `Except`, and machine-level
collaborators (the regex engine, module execution, the file system) are
modelled as explicit parameters or small abstract traces, documented at
each definition.
-/

namespace Siun

/-- The `State` enum of `state.py` (update urgency states). -/
inductive State where
  | OK
  | AVAILABLE_UPDATES
  | WARNING_UPDATES
  | CRITICAL_UPDATES
  | UNKNOWN
deriving DecidableEq, Repr

/-- A value stored in the loosely typed `criteria_settings` dict:
integers (weights, thresholds) or strings (patterns). -/
inductive SettingValue where
  | int (n : Int)
  | str (s : String)
deriving DecidableEq, Repr

/-- The `criteria_settings` mapping: a Python dict embedded as an association list in
insertion order. -/
abbrev Settings := List (String × SettingValue)

/-- Python dict read `d[key]` (first occurrence wins; keys of a dict are
unique, so first = only). -/
def lookupFirst {α : Type} : List (String × α) → String → Option α
  | [], _ => none
  | (k, v) :: rest, key => if k = key then some v else lookupFirst rest key

/-- Python dict write `d[key] = v`: replace the value of an existing key in
place, otherwise append the new pair. -/
def insertReplace {α : Type} : List (String × α) → String → α → List (String × α)
  | [], key, v => [(key, v)]
  | (k, w) :: rest, key, v =>
    if k = key then (key, v) :: rest else (k, w) :: insertReplace rest key v

/-- Python `d.update(u)`: assign every pair of `u` into `d`, in order. -/
def mergeInto {α : Type} : List (String × α) → List (String × α) → List (String × α)
  | base, [] => base
  | base, (k, v) :: rest => mergeInto (insertReplace base k v) rest

/-- Errors that can escape `Updates.update`: a plain `KeyError` from the
weight lookup, a plain `TypeError` from comparing a non-integer weight, or
a `CriterionError` wrapping a failure with the criterion's name
(`none` for the user-criteria loader). -/
inductive UpdateErr where
  | keyError (key : String)
  | typeErr (key : String)
  | criterionErr (msg : String) (name : Option String)
deriving DecidableEq, Repr

/-- A criterion: the `is_fulfilled` capability of `SiunCriterion`.
A raising predicate is an `Except.error` carrying the exception text. -/
structure Criterion where
  isFulfilled : Settings → List String → Except String Bool

/-- Embeds `CriterionAvailable.is_fulfilled`: `bool(available_updates)`. -/
def criterionAvailable : Criterion where
  isFulfilled := fun _ updates => .ok (!updates.isEmpty)

/-- Embeds `CriterionCount.is_fulfilled`:
`len(available_updates) >= criteria_settings["count_threshold"]`.
A missing key raises `KeyError`, a string value raises `TypeError`
(both are caught and wrapped by the caller in `update`). -/
def criterionCount : Criterion where
  isFulfilled := fun settings updates =>
    match lookupFirst settings "count_threshold" with
    | some (.int n) => .ok (decide ((updates.length : Int) ≥ n))
    | some (.str _) => .error "TypeError: count_threshold"
    | none => .error "KeyError: count_threshold"

/-- Embeds `CriterionCritical.is_fulfilled`: compile
`criteria_settings["critical_pattern"]` and test whether filtering the
update list by `regex.match` leaves a non-empty list.  The regex engine is
an external collaborator: it is modelled by the parameter
`reMatch pattern candidate`. -/
def criterionCritical (reMatch : String → String → Bool) : Criterion where
  isFulfilled := fun settings updates =>
    match lookupFirst settings "critical_pattern" with
    | some (.str pat) => .ok (!(updates.filter (reMatch pat)).isEmpty)
    | some (.int _) => .error "TypeError: critical_pattern"
    | none => .error "KeyError: critical_pattern"

/-- The module-level `BUILTIN_CRITERIA` dict of `state.py`, parametrised
by the regex engine used by the `critical` criterion. -/
def builtinCriteria (reMatch : String → String → Bool) : List (String × Criterion) :=
  [("available", criterionAvailable),
   ("count", criterionCount),
   ("critical", criterionCritical reMatch)]

/-- The snapshot fields of the `Updates` aggregate that `update()` reads
and writes (`score` is a derived property, not a field; timestamps are
abstracted to a `Nat` tick). -/
structure UpdatesState where
  criteria_settings : Settings
  thresholds : List (Int × State)
  available_updates : List String
  matched_criteria : List (String × Int)
  state : State
  last_update : Nat

/-- The `score` property: sum of the weights of the matched criteria. -/
def score (matched : List (String × Int)) : Int :=
  (matched.map Prod.snd).sum

/-- The threshold loop at the end of `Updates.update`, applied to the
already-reversed key list: take the first cutoff that the score meets,
otherwise set `OK` on every non-matching iteration; an empty list leaves
the state untouched. -/
def resolveLoop (sc : Int) : List (Int × State) → State → State
  | [], st => st
  | (cutoff, target) :: rest, _ =>
    if sc ≥ cutoff then target else resolveLoop sc rest State.OK

/-- Embeds `thresholds = reversed(self.thresholds.keys()); for threshold
in thresholds: ...` — the dict is iterated in reverse insertion order. -/
def resolveState (sc : Int) (thresholds : List (Int × State)) (prev : State) : State :=
  resolveLoop sc thresholds.reverse prev

/-- The criteria loop of `Updates.update`: for each registered criterion,
read `criteria_settings[f"{name}_weight"]` (KeyError if absent, TypeError
if not comparable with 0 — both uncaught), skip if the weight is ≤ 0,
otherwise run the predicate (wrapping a raise in `CriterionError`) and on
fulfilment assign `matched_criteria[name] = weight`. -/
def checkCriteria (settings : Settings) (updates : List String) :
    List (String × Criterion) → List (String × Int) → Except UpdateErr (List (String × Int))
  | [], matched => .ok matched
  | (name, crit) :: rest, matched =>
    match lookupFirst settings (name ++ "_weight") with
    | none => .error (.keyError (name ++ "_weight"))
    | some (.str _) => .error (.typeErr (name ++ "_weight"))
    | some (.int w) =>
      if w ≤ 0 then checkCriteria settings updates rest matched
      else
        match crit.isFulfilled settings updates with
        | .error msg => .error (.criterionErr msg (some name))
        | .ok true => checkCriteria settings updates rest (insertReplace matched name w)
        | .ok false => checkCriteria settings updates rest matched

/-- Tests whether `pat` is an initial segment of `l` (helper for
Python's substring test). -/
def listStartsWith : List Char → List Char → Bool
  | [], _ => true
  | _ :: _, [] => false
  | p :: ps, x :: xs => p = x && listStartsWith ps xs

/-- Index of the first occurrence of `pat` in `l`, if any. -/
def findSub (pat : List Char) : List Char → Option Nat
  | [] => if listStartsWith pat [] then some 0 else none
  | c :: rest =>
    if listStartsWith pat (c :: rest) then some 0
    else (findSub pat rest).map (fun i => i + 1)

/-- Python `pat in s` (substring containment). -/
def strContains (s pat : String) : Bool :=
  (findSub pat.data s.data).isSome

/-- Python `s.split(pat)[0]`: the text before the first occurrence of
`pat`, the whole string when `pat` does not occur. -/
def splitFirst (s pat : String) : String :=
  match findSub pat.data s.data with
  | some i => String.mk (s.data.take i)
  | none => s

/-- The enabled-criteria scan of `_load_user_criteria`: collect
`setting.split("_weight")[0]` for every settings key that contains
`"_weight"` and has value `> 0`.  Comparing a string value with 0 raises
`TypeError` (Python short-circuits, so the value is only inspected when
the key contains `"_weight"`). -/
def enabledCriteria : Settings → Except String (List String)
  | [] => .ok []
  | (k, v) :: rest =>
    if strContains k "_weight" then
      match v with
      | .str _ => .error "TypeError: comparing str weight with int"
      | .int n =>
        if n > 0 then (enabledCriteria rest).map (fun e => splitFirst k "_weight" :: e)
        else enabledCriteria rest
    else enabledCriteria rest

/-- A file in the user criteria directory.  Executing the module is an
external effect, modelled by `loadResult`: `Except.error` when the module
raises at import time, `Except.ok none` when it exposes no `SiunCriterion`
class, `Except.ok (some c)` when it exposes criterion `c`. -/
structure UserFile where
  stem : String
  suffix : String
  loadResult : Except String (Option Criterion)

/-- The file loop of `_load_user_criteria`: skip files that are not `.py`
or whose stem is not enabled; execute the remaining ones and register
their `SiunCriterion` under the file stem. -/
def loadFiles (enabled : List String) :
    List UserFile → List (String × Criterion) → Except String (List (String × Criterion))
  | [], user => .ok user
  | f :: rest, user =>
    if f.suffix = ".py" && enabled.contains f.stem then
      match f.loadResult with
      | .error e => .error e
      | .ok none => loadFiles enabled rest user
      | .ok (some c) => loadFiles enabled rest (insertReplace user f.stem c)
    else loadFiles enabled rest user

/-- Embeds `_load_user_criteria`: `includeDir = none` models a missing or
non-directory include path (return `{}` immediately). -/
def loadUserCriteria (settings : Settings) (includeDir : Option (List UserFile)) :
    Except String (List (String × Criterion)) :=
  match includeDir with
  | none => .ok []
  | some files =>
    match enabledCriteria settings with
    | .error e => .error e
    | .ok enabled => loadFiles enabled files []

/-- Embeds `Updates.update`: set `last_update`, replace `available_updates`,
bind the module-level `BUILTIN_CRITERIA` dict (`globalCriteria`) and merge
the loaded user criteria into it in place (the merged dict is returned as
the new module-level table), run the criteria loop, then resolve the
state through the threshold table.  An exception leaves the model at the
returned `Except.error` (the claims below only concern completed calls
and the raised error). -/
def updateStep (globalCriteria : List (String × Criterion))
    (includeDir : Option (List UserFile)) (now : Nat)
    (availableUpdates : Option (List String)) (s : UpdatesState) :
    Except UpdateErr (List (String × Criterion) × UpdatesState) :=
  let available := availableUpdates.getD []
  match loadUserCriteria s.criteria_settings includeDir with
  | .error msg => .error (.criterionErr ("unable to load user criteria: " ++ msg) none)
  | .ok user =>
    let criteria := mergeInto globalCriteria user
    match checkCriteria s.criteria_settings available criteria s.matched_criteria with
    | .error e => .error e
    | .ok matched =>
      .ok (criteria,
        { s with
          available_updates := available
          matched_criteria := matched
          state := resolveState (score matched) s.thresholds s.state
          last_update := now })

/-- The criterion names collected by `SiunConfig.criteria_must_have_weight`
in `config.py`: `key.split("_")[0]` for every settings key containing
`"_"`.  (The Python code collects them into a set; validity below is
invariant under de-duplication, so a list is used.) -/
def criteriaNames (settings : Settings) : List String :=
  (settings.map Prod.fst).filterMap
    (fun k => if strContains k "_" then some (splitFirst k "_") else none)

/-- Embeds `SiunConfig.criteria_must_have_weight`: every collected criterion name
must have a corresponding `"<name>_weight"` key. -/
def criteriaMustHaveWeight (settings : Settings) : Bool :=
  (criteriaNames settings).all
    (fun name => (settings.map Prod.fst).contains (name ++ "_weight"))

/-! ### State persistence: write path

`Updates.persist_state` serializes the snapshot, writes it to a
`NamedTemporaryFile` in the system temp directory, flushes, and then runs
`shutil.copy(temp, update_file_path)`.  `shutil.copy` is a standard
library collaborator: it opens the destination for writing (truncating
it) and copies the source in bounded chunks.  The model below records the
contents of the destination file observable by a concurrent reader after
each step. -/

/-- Destination contents after the truncating open and after each chunk
write of `shutil.copyfileobj` (the last element is the complete file). -/
def cumulativeWrites : List String → String → List String
  | [], acc => [acc]
  | c :: rest, acc => acc :: cumulativeWrites rest (acc ++ c)

/-- Observable destination contents over a `persist_state` call on the
source: the prior contents, then the truncated file, then each chunked
write of `shutil.copy`. -/
def persistStateViews (oldDst : String) (chunks : List String) : List String :=
  oldDst :: cumulativeWrites chunks ""

/-- Observable destination contents for the atomic write path the spec
describes (temp file on the same filesystem, then `os.replace`): the
destination goes from the old contents directly to the new. -/
def atomicReplaceViews (oldDst full : String) : List String :=
  [oldDst, full]

/-! ### State persistence: read path

`Updates.read_state` returns `None` when the state file is absent and
otherwise runs `json.load` with `StateDecoder` and validates the result
as a `SiunState` pydantic model.  JSON values are embedded as the
inductive `Json`; the decoder's `object_hook` is applied to every object
bottom-up, exactly as Python's `json` module does. -/

/-- A parsed JSON document. -/
inductive Json where
  | jnull
  | jbool (b : Bool)
  | jnum (n : Int)
  | jstr (s : String)
  | jarr (xs : List Json)
  | jobj (fields : List (String × Json))

/-- A Python value produced by `json.load` with `StateDecoder`: plain
JSON data plus the custom types the `object_hook` constructs.  The
`StateText` and `StateColor` enums are carried by their `State` variant;
a decoded `datetime` is carried by its ISO text. -/
inductive PyValue where
  | pnone
  | pbool (b : Bool)
  | pint (n : Int)
  | pstr (s : String)
  | plist (xs : List PyValue)
  | pdict (fields : List (String × PyValue))
  | pstate (s : State)
  | pstateText (s : State)
  | pstateColor (s : State)
  | pdatetime (iso : String)

/-- Python truthiness of the decoded value (`if not pytype`). -/
def isFalsy : PyValue → Bool
  | .pnone => true
  | .pbool b => !b
  | .pint n => n = 0
  | .pstr s => s.isEmpty
  | .plist xs => xs.isEmpty
  | .pdict fs => fs.isEmpty
  | _ => false

/-- Embeds `State(value)`: the `State` member with the given enum value. -/
def stateOfValue : String → Option State
  | "OK" => some .OK
  | "AVAILABLE_UPDATES" => some .AVAILABLE_UPDATES
  | "WARNING_UPDATES" => some .WARNING_UPDATES
  | "CRITICAL_UPDATES" => some .CRITICAL_UPDATES
  | "UNKNOWN" => some .UNKNOWN
  | _ => none

/-- Embeds `StateText(value)`: the member with the given text value. -/
def stateTextOfValue : String → Option State
  | "Ok" => some .OK
  | "Updates available" => some .AVAILABLE_UPDATES
  | "Updates recommended" => some .WARNING_UPDATES
  | "Updates required" => some .CRITICAL_UPDATES
  | "Unknown" => some .UNKNOWN
  | _ => none

/-- Embeds `StateColor(value)`: the member with the given color value. -/
def stateColorOfValue : String → Option State
  | "green" => some .OK
  | "blue" => some .AVAILABLE_UPDATES
  | "yellow" => some .WARNING_UPDATES
  | "red" => some .CRITICAL_UPDATES
  | "magenta" => some .UNKNOWN
  | _ => none

/-- Embeds `StateDecoder._custom_object_hook`: falsy or absent `py-type` returns
the dict unchanged; `"datetime"` parses the ISO stamp (ISO parsing by
`datetime.fromisoformat` is abstracted as accepting the string); the
three enum names construct the enum from `o["value"]` (`ValueError` for
an unknown value or a non-string); any other truthy tag raises
`NotImplementedError`. -/
def objectHook (fs : List (String × PyValue)) : Except String PyValue :=
  match lookupFirst fs "py-type" with
  | none => .ok (.pdict fs)
  | some pv =>
    if isFalsy pv then .ok (.pdict fs)
    else
      match pv with
      | .pstr "datetime" =>
        match lookupFirst fs "value" with
        | some (.pstr v) => .ok (.pdatetime v)
        | some _ => .error "TypeError: fromisoformat"
        | none => .error "KeyError: value"
      | .pstr "StateText" =>
        match lookupFirst fs "value" with
        | some (.pstr v) =>
          match stateTextOfValue v with
          | some st => .ok (.pstateText st)
          | none => .error "ValueError: StateText"
        | some _ => .error "ValueError: StateText"
        | none => .error "KeyError: value"
      | .pstr "StateColor" =>
        match lookupFirst fs "value" with
        | some (.pstr v) =>
          match stateColorOfValue v with
          | some st => .ok (.pstateColor st)
          | none => .error "ValueError: StateColor"
        | some _ => .error "ValueError: StateColor"
        | none => .error "KeyError: value"
      | .pstr "State" =>
        match lookupFirst fs "value" with
        | some (.pstr v) =>
          match stateOfValue v with
          | some st => .ok (.pstate st)
          | none => .error "ValueError: State"
        | some _ => .error "ValueError: State"
        | none => .error "KeyError: value"
      | _ => .error "NotImplementedError"

mutual
/-- Embeds `json.load` with `StateDecoder`: decode sub-values first, then apply
the object hook to each object. -/
def decodeJson : Json → Except String PyValue
  | .jnull => .ok .pnone
  | .jbool b => .ok (.pbool b)
  | .jnum n => .ok (.pint n)
  | .jstr s => .ok (.pstr s)
  | .jarr xs => (decodeJsonList xs).map PyValue.plist
  | .jobj fs => (decodeJsonFields fs).bind objectHook

/-- Decode the elements of a JSON array. -/
def decodeJsonList : List Json → Except String (List PyValue)
  | [] => .ok []
  | j :: rest => (decodeJson j).bind fun v => (decodeJsonList rest).map fun vs => v :: vs

/-- Decode the field values of a JSON object. -/
def decodeJsonFields : List (String × Json) → Except String (List (String × PyValue))
  | [] => .ok []
  | (k, j) :: rest =>
    (decodeJson j).bind fun v => (decodeJsonFields rest).map fun vs => (k, v) :: vs
end

/-- A digit string as a natural number (`none` when empty or non-digit). -/
def digitsToNat? (cs : List Char) : Option Nat :=
  if cs.isEmpty then none
  else
    cs.foldl
      (fun acc c =>
        acc.bind fun n => if c.isDigit then some (n * 10 + (c.toNat - 48)) else none)
      (some 0)

/-- Pydantic's string-to-int key coercion for `dict[int, str]` fields. -/
def strToInt? (s : String) : Option Int :=
  match s.data with
  | '-' :: rest => (digitsToNat? rest).map fun n => -(n : Int)
  | cs => (digitsToNat? cs).map fun n => (n : Int)

/-- The `SiunState` pydantic model of `state.py` (a decoded `datetime` is
kept as its ISO text). -/
structure SiunStateModel where
  criteria_settings : List (String × PyValue)
  thresholds : List (Int × String)
  available_updates : List String
  matched_criteria : List (String × List (String × PyValue))
  state : State
  last_update : String

/-- Validate the `criteria_settings: dict[str, Any]` field. -/
def asSettingsDict : PyValue → Except String (List (String × PyValue))
  | .pdict fs => .ok fs
  | _ => .error "ValidationError: criteria_settings"

/-- Validate the `thresholds: dict[int, str]` field (string keys are
coerced to int, as pydantic does for JSON objects). -/
def asThresholds : PyValue → Except String (List (Int × String))
  | .pdict fs =>
    fs.foldr
      (fun kv acc =>
        acc.bind fun l =>
          match strToInt? kv.1, kv.2 with
          | some i, .pstr v => .ok ((i, v) :: l)
          | _, _ => .error "ValidationError: thresholds")
      (.ok [])
  | _ => .error "ValidationError: thresholds"

/-- Validate the `available_updates: list[str]` field. -/
def asStrList : PyValue → Except String (List String)
  | .plist xs =>
    xs.foldr
      (fun x acc =>
        acc.bind fun l =>
          match x with
          | .pstr s => .ok (s :: l)
          | _ => .error "ValidationError: available_updates")
      (.ok [])
  | _ => .error "ValidationError: available_updates"

/-- Validate the `matched_criteria: dict[str, dict[str, Any]]` field. -/
def asMatched : PyValue → Except String (List (String × List (String × PyValue)))
  | .pdict fs =>
    fs.foldr
      (fun kv acc =>
        acc.bind fun l =>
          match kv.2 with
          | .pdict inner => .ok ((kv.1, inner) :: l)
          | _ => .error "ValidationError: matched_criteria")
      (.ok [])
  | _ => .error "ValidationError: matched_criteria"

/-- Validate the `state: State` field: a `State` instance is taken as is;
pydantic also coerces a plain string through the enum's value. -/
def asState : PyValue → Except String State
  | .pstate s => .ok s
  | .pstr v =>
    match stateOfValue v with
    | some s => .ok s
    | none => .error "ValidationError: state"
  | _ => .error "ValidationError: state"

/-- Validate the `last_update: datetime` field: a decoded `datetime` is
taken as is; pydantic also parses a plain ISO string (the parse itself is
abstracted as accepting the text). -/
def asDatetime : PyValue → Except String String
  | .pdatetime iso => .ok iso
  | .pstr v => .ok v
  | _ => .error "ValidationError: last_update"

/-- Embeds `SiunState(**json.load(...))`: the decoded top-level value must be an
object providing all six fields with validating values. -/
def validateSiunState (v : PyValue) : Except String SiunStateModel :=
  match v with
  | .pdict fs =>
    match lookupFirst fs "criteria_settings", lookupFirst fs "thresholds",
        lookupFirst fs "available_updates", lookupFirst fs "matched_criteria",
        lookupFirst fs "state", lookupFirst fs "last_update" with
    | some v1, some v2, some v3, some v4, some v5, some v6 =>
      (asSettingsDict v1).bind fun cs =>
        (asThresholds v2).bind fun th =>
          (asStrList v3).bind fun au =>
            (asMatched v4).bind fun mc =>
              (asState v5).bind fun st =>
                (asDatetime v6).map fun lu =>
                  ⟨cs, th, au, mc, st, lu⟩
    | _, _, _, _, _, _ => .error "ValidationError: missing field"
  | _ => .error "ValidationError: not an object"

/-- The state file as `read_state` sees it: absent, present but not valid
JSON text, or a parsed JSON document. -/
inductive FileContent where
  | missing
  | invalidText
  | jsonText (j : Json)

/-- An error raised by `Updates.read_state`: `json.JSONDecodeError` for
invalid text, an exception escaping the object hook, or a pydantic
`ValidationError`. -/
inductive ReadErr where
  | jsonDecodeErr
  | hookErr (msg : String)
  | validationErr (msg : String)
deriving DecidableEq, Repr

/-- Embeds `Updates.read_state`: `None` only when the file does not exist;
otherwise decode and validate, letting every failure propagate. -/
def readState : FileContent → Except ReadErr (Option SiunStateModel)
  | .missing => .ok none
  | .invalidText => .error .jsonDecodeErr
  | .jsonText j =>
    match decodeJson j with
    | .error m => .error (.hookErr m)
    | .ok v =>
      match validateSiunState v with
      | .error m => .error (.validationErr m)
      | .ok st => .ok (some st)

/-! ### Association list lemmas -/

theorem lookupFirst_insertReplace_self {α : Type} (l : List (String × α)) (k : String) (v : α) :
    lookupFirst (insertReplace l k v) k = some v := by
  induction l with
  | nil => simp [insertReplace, lookupFirst]
  | cons hd tl ih =>
    obtain ⟨k', v'⟩ := hd
    by_cases h : k' = k
    · simp [insertReplace, h, lookupFirst]
    · simp [insertReplace, h, lookupFirst, ih]

theorem lookupFirst_insertReplace_ne {α : Type} (l : List (String × α)) (k k' : String) (v : α)
    (h : k' ≠ k) : lookupFirst (insertReplace l k v) k' = lookupFirst l k' := by
  induction l with
  | nil => simp [insertReplace, lookupFirst, Ne.symm h]
  | cons hd tl ih =>
    obtain ⟨k₀, v₀⟩ := hd
    by_cases h₀ : k₀ = k
    · subst h₀
      simp [insertReplace, lookupFirst, Ne.symm h]
    · simp only [insertReplace, if_neg h₀, lookupFirst]
      by_cases h₁ : k₀ = k'
      · simp [h₁]
      · simp [h₁, ih]

theorem insertReplace_eq_self {α : Type} (l : List (String × α)) (k : String) (v : α)
    (h : lookupFirst l k = some v) : insertReplace l k v = l := by
  induction l with
  | nil => simp [lookupFirst] at h
  | cons hd tl ih =>
    obtain ⟨k₀, v₀⟩ := hd
    by_cases h₀ : k₀ = k
    · subst h₀
      simp [lookupFirst] at h
      simp [insertReplace, h]
    · simp only [lookupFirst, if_neg h₀] at h
      simp [insertReplace, h₀, ih h]

theorem keys_insertReplace {α : Type} (l : List (String × α)) (k : String) (v : α) :
    (insertReplace l k v).map Prod.fst = l.map Prod.fst ∨
      (insertReplace l k v).map Prod.fst = l.map Prod.fst ++ [k] := by
  induction l with
  | nil => simp [insertReplace]
  | cons hd tl ih =>
    obtain ⟨k₀, v₀⟩ := hd
    by_cases h₀ : k₀ = k
    · subst h₀
      simp [insertReplace]
    · rcases ih with h | h

      · exact Or.inl (by simp [insertReplace, h₀, h])
      · exact Or.inr (by simp [insertReplace, h₀, h])

theorem nodup_keys_insertReplace {α : Type} (l : List (String × α)) (k : String) (v : α)
    (h : (l.map Prod.fst).Nodup) :
    ((insertReplace l k v).map Prod.fst).Nodup := by
  induction l with
  | nil => simp [insertReplace]
  | cons hd tl ih =>
    obtain ⟨k₀, v₀⟩ := hd
    simp only [List.map_cons, List.nodup_cons] at h
    by_cases h₀ : k₀ = k
    · subst h₀
      simpa [insertReplace] using h
    · simp only [insertReplace, if_neg h₀, List.map_cons, List.nodup_cons]
      refine ⟨?_, ih h.2⟩
      intro hmem
      rcases keys_insertReplace tl k v with he | he
      · exact h.1 (he ▸ hmem)
      · rw [he] at hmem
        rcases List.mem_append.mp hmem with hmem | hmem
        · exact h.1 hmem
        · simp at hmem
          exact h₀ hmem

theorem lookupFirst_mergeInto_not_mem {α : Type} (u : List (String × α)) (l : List (String × α))
    (k : String) (h : k ∉ u.map Prod.fst) :
    lookupFirst (mergeInto l u) k = lookupFirst l k := by
  induction u generalizing l with
  | nil => simp [mergeInto]
  | cons hd tl ih =>
    obtain ⟨k₀, v₀⟩ := hd
    simp only [List.map_cons, List.mem_cons, not_or] at h
    rw [mergeInto, ih _ h.2, lookupFirst_insertReplace_ne _ _ _ _ h.1]

theorem mergeInto_idem {α : Type} (u : List (String × α)) (g : List (String × α))
    (hu : (u.map Prod.fst).Nodup) : mergeInto (mergeInto g u) u = mergeInto g u := by
  induction u generalizing g with
  | nil => simp [mergeInto]
  | cons hd tl ih =>
    obtain ⟨k, v⟩ := hd
    simp only [List.map_cons, List.nodup_cons] at hu
    have hl : lookupFirst (mergeInto (insertReplace g k v) tl) k = some v := by
      rw [lookupFirst_mergeInto_not_mem _ _ _ hu.1]
      exact lookupFirst_insertReplace_self _ _ _
    calc mergeInto (mergeInto g ((k, v) :: tl)) ((k, v) :: tl)
        = mergeInto (insertReplace (mergeInto (insertReplace g k v) tl) k v) tl := by
          simp [mergeInto]
      _ = mergeInto (mergeInto (insertReplace g k v) tl) tl := by
          rw [insertReplace_eq_self _ _ _ hl]
      _ = mergeInto (insertReplace g k v) tl := ih _ hu.2
      _ = mergeInto g ((k, v) :: tl) := by simp [mergeInto]

theorem nodup_keys_mergeInto {α : Type} (u : List (String × α)) (g : List (String × α))
    (hg : (g.map Prod.fst).Nodup) : ((mergeInto g u).map Prod.fst).Nodup := by
  induction u generalizing g with
  | nil => simpa [mergeInto]
  | cons hd tl ih =>
    obtain ⟨k, v⟩ := hd
    exact ih _ (nodup_keys_insertReplace _ _ _ hg)

theorem nodup_keys_loadFiles (en : List String) (fs : List UserFile)
    (acc : List (String × Criterion)) (u : List (String × Criterion))
    (hacc : (acc.map Prod.fst).Nodup) (h : loadFiles en fs acc = .ok u) :
    (u.map Prod.fst).Nodup := by
  induction fs generalizing acc with
  | nil =>
    simp only [loadFiles, Except.ok.injEq] at h
    exact h ▸ hacc
  | cons f rest ih =>
    simp only [loadFiles] at h
    by_cases hc : (f.suffix = ".py" && en.contains f.stem) = true
    · rw [if_pos hc] at h
      match hload : f.loadResult with
      | .error e => rw [hload] at h; exact absurd h (by simp)
      | .ok none => rw [hload] at h; exact ih _ hacc h
      | .ok (some c) =>
        rw [hload] at h
        exact ih _ (nodup_keys_insertReplace _ _ _ hacc) h
    · rw [if_neg hc] at h
      exact ih _ hacc h

/-! ### Resolution lemmas -/

theorem resolveLoop_prev_irrel (sc : Int) (hd : Int × State) (rest : List (Int × State))
    (p q : State) : resolveLoop sc (hd :: rest) p = resolveLoop sc (hd :: rest) q := rfl

theorem resolveLoop_of_no_match (sc : Int) (R : List (Int × State)) (p : State)
    (hne : R ≠ []) (h : ∀ e ∈ R, sc < e.1) : resolveLoop sc R p = State.OK := by
  induction R generalizing p with
  | nil => exact absurd rfl hne
  | cons hd tl ih =>
    obtain ⟨c, t⟩ := hd
    have hc : sc < c := h (c, t) (by simp)
    simp only [resolveLoop, if_neg (not_le.mpr hc)]
    cases tl with
    | nil => simp [resolveLoop]
    | cons e tl' =>
      exact ih State.OK (by simp) (fun x hx => h x (List.mem_cons_of_mem _ hx))

theorem resolveLoop_max (sc : Int) (R : List (Int × State)) (p : State) (c : Int) (t : State)
    (hsorted : R.Pairwise (fun a b => b.1 < a.1)) (hmem : (c, t) ∈ R) (hle : c ≤ sc)
    (hmax : ∀ e ∈ R, e.1 ≤ sc → e.1 ≤ c) : resolveLoop sc R p = t := by
  induction R generalizing p with
  | nil => simp at hmem
  | cons hd tl ih =>
    obtain ⟨c₀, t₀⟩ := hd
    rw [List.pairwise_cons] at hsorted
    by_cases h₀ : sc ≥ c₀
    · simp only [resolveLoop, if_pos h₀]
      rcases List.mem_cons.mp hmem with he | htl
      · injection he with h₁ h₂
        exact h₂.symm
      · exact absurd (hmax (c₀, t₀) (by simp) h₀) (not_le.mpr (hsorted.1 _ htl))
    · have hmem' : (c, t) ∈ tl := by
        rcases List.mem_cons.mp hmem with he | htl
        · injection he with h₁ h₂
          exact absurd (h₁ ▸ hle) (by simpa using h₀)
        · exact htl
      simp only [resolveLoop, if_neg h₀]
      exact ih State.OK hsorted.2 hmem'
        (fun e he hesc => hmax e (List.mem_cons_of_mem _ he) hesc)

/-! ### Unfolding lemmas for the update step -/

theorem updateStep_eq (g : List (String × Criterion)) (dir : Option (List UserFile)) (now : Nat)
    (x : Option (List String)) (s : UpdatesState) (u : List (String × Criterion))
    (m : List (String × Int))
    (hu : loadUserCriteria s.criteria_settings dir = .ok u)
    (hc : checkCriteria s.criteria_settings (x.getD []) (mergeInto g u) s.matched_criteria
      = .ok m) :
    updateStep g dir now x s = .ok (mergeInto g u,
      { s with available_updates := x.getD []
               matched_criteria := m
               state := resolveState (score m) s.thresholds s.state
               last_update := now }) := by
  unfold updateStep
  rw [hu]
  simp only []
  rw [hc]

theorem updateStep_inv (g : List (String × Criterion)) (dir : Option (List UserFile)) (now : Nat)
    (x : Option (List String)) (s : UpdatesState) (r : List (String × Criterion) × UpdatesState)
    (h : updateStep g dir now x s = .ok r) :
    ∃ u m, loadUserCriteria s.criteria_settings dir = .ok u ∧
      checkCriteria s.criteria_settings (x.getD []) (mergeInto g u) s.matched_criteria = .ok m ∧
      r = (mergeInto g u,
        { s with available_updates := x.getD []
                 matched_criteria := m
                 state := resolveState (score m) s.thresholds s.state
                 last_update := now }) := by
  unfold updateStep at h
  split at h
  · exact absurd h (by simp)
  · simp only [] at h
    split at h
    · exact absurd h (by simp)
    · rename_i s1 u hu s2 m hc
      simp only [Except.ok.injEq] at h
      exact ⟨u, m, hu, hc, h.symm⟩

theorem loadUserCriteria_nodup (settings : Settings) (dir : Option (List UserFile))
    (u : List (String × Criterion)) (h : loadUserCriteria settings dir = .ok u) :
    (u.map Prod.fst).Nodup := by
  match dir with
  | none =>
    simp only [loadUserCriteria, Except.ok.injEq] at h
    simp [← h]
  | some files =>
    simp only [loadUserCriteria] at h
    match he : enabledCriteria settings with
    | .error e => rw [he] at h; exact absurd h (by simp)
    | .ok en =>
      rw [he] at h
      exact nodup_keys_loadFiles en files [] u (by simp) h

/-! ### The criteria loop never unmatches, and is idempotent -/

theorem checkCriteria_preserve (settings : Settings) (x : List String) (n : String) :
    ∀ (crits : List (String × Criterion)) (m m' : List (String × Int)),
      n ∉ crits.map Prod.fst → checkCriteria settings x crits m = .ok m' →
      lookupFirst m' n = lookupFirst m n := by
  intro crits
  induction crits with
  | nil =>
    intro m m' _ h
    simp only [checkCriteria, Except.ok.injEq] at h
    rw [h]
  | cons hd tl ih =>
    intro m m' hnot h
    obtain ⟨name, crit⟩ := hd
    simp only [List.map_cons, List.mem_cons, not_or] at hnot
    simp only [checkCriteria] at h
    match hw : lookupFirst settings (name ++ "_weight") with
    | none => rw [hw] at h; exact absurd h (by simp)
    | some (.str p) => rw [hw] at h; exact absurd h (by simp)
    | some (.int w) =>
      rw [hw] at h
      simp only [] at h
      by_cases hle : w ≤ 0
      · rw [if_pos hle] at h
        exact ih m m' hnot.2 h
      · rw [if_neg hle] at h
        match hf : crit.isFulfilled settings x with
        | .error msg => rw [hf] at h; exact absurd h (by simp)
        | .ok true =>
          rw [hf] at h
          simp only [] at h
          rw [ih _ m' hnot.2 h, lookupFirst_insertReplace_ne _ _ _ _ hnot.1]
        | .ok false =>
          rw [hf] at h
          simp only [] at h
          exact ih m m' hnot.2 h

theorem checkCriteria_idem (settings : Settings) (x : List String) :
    ∀ (crits : List (String × Criterion)) (m m' : List (String × Int)),
      (crits.map Prod.fst).Nodup → checkCriteria settings x crits m = .ok m' →
      checkCriteria settings x crits m' = .ok m' := by
  intro crits
  induction crits with
  | nil =>
    intro m m' _ h
    simp [checkCriteria]
  | cons hd tl ih =>
    intro m m' hnodup h
    obtain ⟨name, crit⟩ := hd
    simp only [List.map_cons, List.nodup_cons] at hnodup
    simp only [checkCriteria] at h ⊢
    match hw : lookupFirst settings (name ++ "_weight") with
    | none => rw [hw] at h; exact absurd h (by simp)
    | some (.str p) => rw [hw] at h; exact absurd h (by simp)
    | some (.int w) =>
      rw [hw] at h
      simp only [] at h ⊢
      by_cases hle : w ≤ 0
      · rw [if_pos hle] at h ⊢
        exact ih m m' hnodup.2 h
      · rw [if_neg hle] at h ⊢
        match hf : crit.isFulfilled settings x with
        | .error msg => rw [hf] at h; exact absurd h (by simp)
        | .ok true =>
          rw [hf] at h
          simp only [] at h ⊢
          have hn : lookupFirst m' name = some w := by
            rw [checkCriteria_preserve settings x name tl _ m' hnodup.1 h,
              lookupFirst_insertReplace_self]
          rw [insertReplace_eq_self _ _ _ hn]
          exact ih _ m' hnodup.2 h
        | .ok false =>
          rw [hf] at h
          simp only [] at h ⊢
          exact ih m m' hnodup.2 h

/-- Re-resolving with the same score is stable. -/
theorem resolveState_idem (sc : Int) (T : List (Int × State)) (p : State) :
    resolveState sc T (resolveState sc T p) = resolveState sc T p := by
  unfold resolveState
  cases hT : T.reverse with
  | nil => rfl
  | cons hd tl => exact resolveLoop_prev_irrel sc hd tl _ p

/-! ### Concrete fixtures used by witnesses and counterexamples -/

/-- A regex engine that matches nothing (any engine is admissible for
claims that never reach the `critical` pattern). -/
def rmFalse : String → String → Bool := fun _ _ => false

/-- The shipped default criteria settings relevant to the builtin
criteria (from `get_config` in `config.py`). -/
def defaultSettings : Settings :=
  [("available_weight", .int 1),
   ("critical_pattern", .str "^archlinux-keyring$|^linux$|^pacman.*$"),
   ("critical_weight", .int 1),
   ("count_threshold", .int 15),
   ("count_weight", .int 1)]

/-- The default threshold table, inserted in ascending cutoff order (as
the test fixtures do). -/
def defaultThresholds : List (Int × State) :=
  [(1, .AVAILABLE_UPDATES), (2, .WARNING_UPDATES), (3, .CRITICAL_UPDATES)]

/-- A fresh snapshot over the default configuration. -/
def freshSnapshot : UpdatesState :=
  ⟨defaultSettings, defaultThresholds, [], [], .UNKNOWN, 0⟩

/-! ### C1 — threshold resolution -/

/-- C1 (counterexample): the resolution at the end of `Updates.update`
walks the threshold dict in reverse *insertion* order, not in descending
cutoff order.  With the entries of the table `{3: CRITICAL, 1: AVAILABLE}`
inserted in descending cutoff order, a score of 5 resolves to
`AVAILABLE_UPDATES` although the highest cutoff ≤ 5 is 3, whose state is
`CRITICAL_UPDATES`; and with an empty table the loop body never runs, so
the prior state (here `UNKNOWN`) is kept instead of the claimed baseline
`OK`. -/
theorem c1_resolve_counterexample :
    (resolveState 5 [(3, State.CRITICAL_UPDATES), (1, State.AVAILABLE_UPDATES)] State.UNKNOWN
        = State.AVAILABLE_UPDATES ∧
      State.AVAILABLE_UPDATES ≠ State.CRITICAL_UPDATES) ∧
    (resolveState 0 ([] : List (Int × State)) State.UNKNOWN = State.UNKNOWN ∧
      State.UNKNOWN ≠ State.OK) := by
  decide

/-- C1 (amended): when the threshold table's entries are inserted in
ascending cutoff order (so that reverse insertion order is descending
cutoff order), the resolution at the end of `Updates.update` assigns the
state of the highest cutoff that is ≤ the score; when the table is
non-empty and no cutoff is ≤ the score it assigns the baseline `OK`; when
the table is empty the previous state is left unchanged. -/
theorem c1_resolve_highest_cutoff (sc : Int) (T : List (Int × State)) (prev : State)
    (hsorted : T.Pairwise (fun a b => a.1 < b.1)) :
    (∀ c t, (c, t) ∈ T → c ≤ sc → (∀ e ∈ T, e.1 ≤ sc → e.1 ≤ c) →
      resolveState sc T prev = t) ∧
    (T ≠ [] → (∀ e ∈ T, sc < e.1) → resolveState sc T prev = State.OK) ∧
    (T = [] → resolveState sc T prev = prev) := by
  refine ⟨?_, ?_, ?_⟩
  · intro c t hmem hle hmax
    exact resolveLoop_max sc T.reverse prev c t
      (List.pairwise_reverse.mpr hsorted)
      (List.mem_reverse.mpr hmem) hle
      (fun e he hesc => hmax e (List.mem_reverse.mp he) hesc)
  · intro hne h
    exact resolveLoop_of_no_match sc T.reverse prev
      (fun hrev => hne (by simpa using hrev))
      (fun e he => h e (List.mem_reverse.mp he))
  · intro h
    subst h
    rfl

/-- C1 (witness): on the default ascending table, a score of 2 resolves
to `WARNING_UPDATES`, the state of the highest cutoff ≤ 2. -/
theorem c1_resolve_witness :
    resolveState 2 defaultThresholds State.UNKNOWN = State.WARNING_UPDATES :=
  (c1_resolve_highest_cutoff 2 defaultThresholds State.UNKNOWN (by decide)).1
    2 State.WARNING_UPDATES (by decide) (by decide) (by decide)

/-! ### C2 — update() with an empty update list -/

/-- If every criterion in the table is either disabled (weight ≤ 0) or
evaluates to false, the criteria loop returns the matched dict
unchanged. -/
theorem checkCriteria_of_all_skip (settings : Settings) (x : List String) :
    ∀ (crits : List (String × Criterion)) (m : List (String × Int)),
      (∀ p ∈ crits, ∃ w : Int, lookupFirst settings (p.1 ++ "_weight") = some (.int w) ∧
        (w ≤ 0 ∨ p.2.isFulfilled settings x = .ok false)) →
      checkCriteria settings x crits m = .ok m := by
  intro crits
  induction crits with
  | nil =>
    intro m _
    simp [checkCriteria]
  | cons hd tl ih =>
    intro m h
    obtain ⟨name, crit⟩ := hd
    obtain ⟨w, hw, hcase⟩ := h (name, crit) (by simp)
    simp only [checkCriteria]
    rw [hw]
    simp only []
    have htl : ∀ p ∈ tl, ∃ w : Int,
        lookupFirst settings (p.1 ++ "_weight") = some (.int w) ∧
          (w ≤ 0 ∨ p.2.isFulfilled settings x = .ok false) :=
      fun p hp => h p (List.mem_cons_of_mem _ hp)
    by_cases hle : w ≤ 0
    · rw [if_pos hle]
      exact ih m htl
    · rw [if_neg hle]
      rcases hcase with hc | hc
      · exact absurd hc hle
      · rw [hc]
        simp only []
        exact ih m htl

/-- C2 (counterexample): `update` does not recompute `matched_criteria`
from the supplied list alone — it only overlays currently fulfilled
criteria onto the existing dict.  On a snapshot rehydrated with a prior
matched entry, `update([])` keeps that entry, yielding score 1 and state
`AVAILABLE_UPDATES` instead of the claimed `{}`/0/OK; on a fresh snapshot
with `count_threshold = 0` the builtin `count` criterion *is* satisfied
by the empty list; and on a fresh snapshot with an empty threshold table
`update([])` leaves the state `UNKNOWN`, not OK. -/
theorem c2_update_empty_counterexample :
    ((updateStep (builtinCriteria rmFalse) none 1 (some [])
        ⟨defaultSettings, defaultThresholds, [], [("available", 1)], .AVAILABLE_UPDATES, 0⟩).map
          (fun r => (r.2.matched_criteria, score r.2.matched_criteria, r.2.state))
        = .ok ([("available", 1)], 1, State.AVAILABLE_UPDATES) ∧
      ([("available", (1 : Int))], (1 : Int), State.AVAILABLE_UPDATES)
        ≠ (([] : List (String × Int)), 0, State.OK)) ∧
    ((updateStep (builtinCriteria rmFalse) none 1 (some [])
        ⟨[("available_weight", .int 1),
          ("critical_pattern", .str "^linux$"), ("critical_weight", .int 1),
          ("count_threshold", .int 0), ("count_weight", .int 1)],
          defaultThresholds, [], [], .UNKNOWN, 0⟩).map
          (fun r => r.2.matched_criteria) = .ok [("count", 1)] ∧
      [("count", (1 : Int))] ≠ ([] : List (String × Int))) ∧
    ((updateStep (builtinCriteria rmFalse) none 1 (some [])
        ⟨defaultSettings, [], [], [], .UNKNOWN, 0⟩).map (fun r => r.2.state)
        = .ok State.UNKNOWN ∧
      State.UNKNOWN ≠ State.OK) := by
  exact ⟨⟨rfl, by decide⟩, ⟨rfl, by decide⟩, ⟨rfl, by decide⟩⟩

/-- C2 (amended): `update(X)` overlays fulfilled criteria instead of
recomputing from scratch.  With the builtin criteria, no user criteria
directory, and a positive `count_threshold`, `update([])` adds nothing:
`matched_criteria` is returned exactly as it was (so it is `{}` with
score 0 precisely when it was empty before), and in that case the state
resolves to `OK` whenever the threshold table is non-empty with only
positive cutoffs (an empty table keeps the prior state instead). -/
theorem c2_update_empty_overlay (rm : String → String → Bool) (now : Nat) (s : UpdatesState)
    (wa wc wcr n : Int) (pat : String)
    (h1 : lookupFirst s.criteria_settings "available_weight" = some (.int wa))
    (h2 : lookupFirst s.criteria_settings "count_weight" = some (.int wc))
    (h3 : lookupFirst s.criteria_settings "critical_weight" = some (.int wcr))
    (h4 : lookupFirst s.criteria_settings "count_threshold" = some (.int n))
    (h5 : 1 ≤ n)
    (h6 : lookupFirst s.criteria_settings "critical_pattern" = some (.str pat)) :
    ∃ s', updateStep (builtinCriteria rm) none now (some []) s
        = .ok (builtinCriteria rm, s') ∧
      s'.matched_criteria = s.matched_criteria ∧
      s'.last_update = now ∧
      (s.matched_criteria = [] →
        score s'.matched_criteria = 0 ∧
        (s.thresholds ≠ [] → (∀ e ∈ s.thresholds, 0 < e.1) → s'.state = State.OK)) := by
  have hchk : checkCriteria s.criteria_settings [] (builtinCriteria rm) s.matched_criteria
      = .ok s.matched_criteria := by
    apply checkCriteria_of_all_skip
    intro p hp
    simp only [builtinCriteria, List.mem_cons, List.not_mem_nil, or_false] at hp
    rcases hp with rfl | rfl | rfl
    · exact ⟨wa, h1, Or.inr rfl⟩
    · refine ⟨wc, h2, Or.inr ?_⟩
      simp only [criterionCount, h4]
      have hlt : ¬ ((([] : List String).length : Int) ≥ n) := by simpa using by omega
      simp only [Except.ok.injEq, decide_eq_false_iff_not]
      exact hlt
    · refine ⟨wcr, h3, Or.inr ?_⟩
      simp [criterionCritical, h6]
  have heq := updateStep_eq (builtinCriteria rm) none now (some []) s [] s.matched_criteria
    rfl hchk
  refine ⟨_, heq, rfl, rfl, ?_⟩
  intro hm
  refine ⟨by simp [hm, score], ?_⟩
  intro hne hpos
  show resolveState (score s.matched_criteria) s.thresholds s.state = State.OK
  rw [hm]
  show resolveLoop 0 s.thresholds.reverse s.state = State.OK
  exact resolveLoop_of_no_match 0 s.thresholds.reverse s.state
    (fun hrev => hne (by simpa using hrev))
    (fun e he => hpos e (List.mem_reverse.mp he))

/-- C2 (witness): on a fresh snapshot over the default configuration,
`update([])` leaves `matched_criteria` empty with score 0 and state OK. -/
theorem c2_update_empty_witness :
    ∃ s', updateStep (builtinCriteria rmFalse) none 3 (some []) freshSnapshot
        = .ok (builtinCriteria rmFalse, s') ∧
      s'.matched_criteria = freshSnapshot.matched_criteria ∧
      s'.last_update = 3 ∧
      (freshSnapshot.matched_criteria = [] →
        score s'.matched_criteria = 0 ∧
        (freshSnapshot.thresholds ≠ [] → (∀ e ∈ freshSnapshot.thresholds, 0 < e.1) →
          s'.state = State.OK)) :=
  c2_update_empty_overlay rmFalse 3 freshSnapshot 1 1 1 15
    "^archlinux-keyring$|^linux$|^pacman.*$" rfl rfl rfl rfl (by decide) rfl

/-! ### C7 — idempotence of update -/

/-- C7: calling `update(X)` twice in a row yields, after the second call,
the same `matched_criteria`, the same (derived) score and the same state
value as after the first call; only `last_update` moves to the new tick.
The criteria table is a Python dict, so its keys are assumed distinct. -/
theorem c7_update_idempotent (g : List (String × Criterion)) (dir : Option (List UserFile))
    (now₁ now₂ : Nat) (x : Option (List String)) (s : UpdatesState)
    (g₁ : List (String × Criterion)) (s₁ : UpdatesState)
    (hg : (g.map Prod.fst).Nodup)
    (h₁ : updateStep g dir now₁ x s = .ok (g₁, s₁)) :
    ∃ s₂, updateStep g₁ dir now₂ x s₁ = .ok (g₁, s₂) ∧
      s₂.matched_criteria = s₁.matched_criteria ∧
      score s₂.matched_criteria = score s₁.matched_criteria ∧
      s₂.state = s₁.state ∧
      s₂.last_update = now₂ := by
  obtain ⟨u, m, hu, hc, hr⟩ := updateStep_inv g dir now₁ x s (g₁, s₁) h₁
  have hG : g₁ = mergeInto g u := congrArg Prod.fst hr
  have hS : s₁ = { s with available_updates := x.getD []
                          matched_criteria := m
                          state := resolveState (score m) s.thresholds s.state
                          last_update := now₁ } :=
    congrArg Prod.snd hr
  have hset : s₁.criteria_settings = s.criteria_settings := by rw [hS]
  have hmat : s₁.matched_criteria = m := by rw [hS]
  have hth : s₁.thresholds = s.thresholds := by rw [hS]
  have hst : s₁.state = resolveState (score m) s.thresholds s.state := by rw [hS]
  have hu' : loadUserCriteria s₁.criteria_settings dir = .ok u := by rw [hset]; exact hu
  have hnodupU : (u.map Prod.fst).Nodup := loadUserCriteria_nodup _ _ _ hu
  have hmerge2 : mergeInto g₁ u = g₁ := by
    rw [hG]
    exact mergeInto_idem u g hnodupU
  have hc₂ : checkCriteria s₁.criteria_settings (x.getD []) (mergeInto g₁ u)
      s₁.matched_criteria = .ok m := by
    rw [hset, hmerge2, hG, hmat]
    exact checkCriteria_idem s.criteria_settings (x.getD []) (mergeInto g u)
      s.matched_criteria m (nodup_keys_mergeInto u g hg) hc
  have heq2 := updateStep_eq g₁ dir now₂ x s₁ u m hu' hc₂
  rw [hmerge2] at heq2
  have hm2 : m = s₁.matched_criteria := hmat.symm
  refine ⟨_, heq2, hm2, congrArg score hm2, ?_, rfl⟩
  show resolveState (score m) s₁.thresholds s₁.state = s₁.state
  rw [hth, hst]
  exact resolveState_idem (score m) s.thresholds s.state

/-- C7 (witness): a second `update(["siun"])` right after a first one on
the default configuration reproduces the same matched criteria, score and
state. -/
theorem c7_update_idempotent_witness :
    ∃ s₂, updateStep (builtinCriteria rmFalse) none 6 (some ["siun"])
        ⟨defaultSettings, defaultThresholds, ["siun"], [("available", 1)],
          .AVAILABLE_UPDATES, 5⟩
        = .ok (builtinCriteria rmFalse, s₂) ∧
      s₂.matched_criteria
        = (⟨defaultSettings, defaultThresholds, ["siun"], [("available", 1)],
            .AVAILABLE_UPDATES, 5⟩ : UpdatesState).matched_criteria ∧
      score s₂.matched_criteria
        = score (⟨defaultSettings, defaultThresholds, ["siun"], [("available", 1)],
            .AVAILABLE_UPDATES, 5⟩ : UpdatesState).matched_criteria ∧
      s₂.state = (⟨defaultSettings, defaultThresholds, ["siun"], [("available", 1)],
            .AVAILABLE_UPDATES, 5⟩ : UpdatesState).state ∧
      s₂.last_update = 6 :=
  c7_update_idempotent (builtinCriteria rmFalse) none 5 6 (some ["siun"]) freshSnapshot
    (builtinCriteria rmFalse)
    ⟨defaultSettings, defaultThresholds, ["siun"], [("available", 1)], .AVAILABLE_UPDATES, 5⟩
    (by decide) rfl

/-! ### C8 — builtin criterion predicates vs. their reference definitions -/

/-- A filtered list is non-empty exactly when some element satisfies the
predicate. -/
theorem filter_isEmpty_eq_false {α : Type} (p : α → Bool) (l : List α) :
    (l.filter p).isEmpty = false ↔ ∃ u ∈ l, p u = true := by
  induction l with
  | nil => simp
  | cons a t ih =>
    by_cases hp : p a
    · simp [List.filter_cons, hp]
    · simp [List.filter_cons, hp, ih]

/-- C8: for every settings mapping, update list and regex engine,
`available` is fulfilled iff the list is non-empty; `count` is fulfilled
iff the list length is at least `count_threshold`; `critical` is
fulfilled iff some identifier in the list matches the configured
pattern. -/
theorem c8_builtin_criteria_spec (rm : String → String → Bool) (settings : Settings)
    (updates : List String) (n : Int) (pat : String) :
    (criterionAvailable.isFulfilled settings updates = .ok true ↔ updates ≠ []) ∧
    (lookupFirst settings "count_threshold" = some (.int n) →
      (criterionCount.isFulfilled settings updates = .ok true ↔
        (updates.length : Int) ≥ n)) ∧
    (lookupFirst settings "critical_pattern" = some (.str pat) →
      ((criterionCritical rm).isFulfilled settings updates = .ok true ↔
        ∃ u ∈ updates, rm pat u = true)) := by
  refine ⟨?_, ?_, ?_⟩
  · simp [criterionAvailable, List.isEmpty_iff]
  · intro h
    simp [criterionCount, h]
  · intro h
    simp only [criterionCritical, h, Except.ok.injEq, Bool.not_eq_true']
    exact filter_isEmpty_eq_false (rm pat) updates

/-- C8 (witness): with threshold 2 and a prefix-style engine, `count` is
fulfilled on a two-element list and `critical` is fulfilled when the
pattern matches an update name. -/
theorem c8_builtin_criteria_spec_witness :
    (criterionAvailable.isFulfilled [("count_threshold", .int 2)] ["a", "b"] = .ok true
      ↔ (["a", "b"] : List String) ≠ []) ∧
    (criterionCount.isFulfilled [("count_threshold", .int 2)] ["a", "b"] = .ok true
      ↔ ((["a", "b"] : List String).length : Int) ≥ 2) ∧
    ((criterionCritical (fun p s => p = "lin" && s = "linux")).isFulfilled
        [("critical_pattern", .str "lin")] ["linux"] = .ok true
      ↔ ∃ u ∈ ["linux"], (fun p s => p = "lin" && s = "linux") "lin" u = true) :=
  ⟨(c8_builtin_criteria_spec (fun p s => p = "lin" && s = "linux")
      [("count_threshold", .int 2)] ["a", "b"] 2 "lin").1,
   (c8_builtin_criteria_spec (fun p s => p = "lin" && s = "linux")
      [("count_threshold", .int 2)] ["a", "b"] 2 "lin").2.1 rfl,
   (c8_builtin_criteria_spec (fun p s => p = "lin" && s = "linux")
      [("critical_pattern", .str "lin")] ["linux"] 2 "lin").2.2 rfl⟩

/-! ### C5 — disabled criteria are neither evaluated nor loaded -/

/-- Every stem in the enabled list comes from a settings key containing
`"_weight"` with a positive integer value whose text before the first
`"_weight"` is the stem. -/
theorem enabledCriteria_mem_inv (settings : Settings) :
    ∀ (en : List String) (stem : String), enabledCriteria settings = .ok en → stem ∈ en →
      ∃ p ∈ settings, strContains p.1 "_weight" = true ∧ splitFirst p.1 "_weight" = stem ∧
        ∃ k : Int, p.2 = SettingValue.int k ∧ 0 < k := by
  induction settings with
  | nil =>
    intro en stem h hmem
    simp only [enabledCriteria, Except.ok.injEq] at h
    rw [← h] at hmem
    simp at hmem
  | cons hd tl ih =>
    intro en stem h hmem
    obtain ⟨k, v⟩ := hd
    simp only [enabledCriteria] at h
    by_cases hc : strContains k "_weight" = true
    · rw [if_pos hc] at h
      match v with
      | .str p => exact absurd h (by simp)
      | .int n =>
        simp only [] at h
        by_cases hn : n > 0
        · rw [if_pos hn] at h
          match he : enabledCriteria tl with
          | .error e => rw [he] at h; exact absurd h (by simp [Except.map])
          | .ok en' =>
            rw [he] at h
            simp only [Except.map, Except.ok.injEq] at h
            rw [← h] at hmem
            rcases List.mem_cons.mp hmem with rfl | hmem'
            · exact ⟨(k, .int n), by simp, hc, rfl, n, rfl, hn⟩
            · obtain ⟨p, hp, hrest⟩ := ih en' stem he hmem'
              exact ⟨p, List.mem_cons_of_mem _ hp, hrest⟩
        · rw [if_neg hn] at h
          obtain ⟨p, hp, hrest⟩ := ih en stem h hmem
          exact ⟨p, List.mem_cons_of_mem _ hp, hrest⟩
    · rw [if_neg hc] at h
      obtain ⟨p, hp, hrest⟩ := ih en stem h hmem
      exact ⟨p, List.mem_cons_of_mem _ hp, hrest⟩

/-- The file loop ignores a file whose stem is not enabled: its load
effect is never consulted. -/
theorem loadFiles_skip_indep (en : List String) (f f' : UserFile)
    (hstem : f'.stem = f.stem) (hsuf : f'.suffix = f.suffix) (hnot : f.stem ∉ en) :
    ∀ (pre post : List UserFile) (acc : List (String × Criterion)),
      loadFiles en (pre ++ f :: post) acc = loadFiles en (pre ++ f' :: post) acc := by
  have hcond : (f.suffix = ".py" && en.contains f.stem) = false := by
    simp only [Bool.and_eq_false_iff]
    right
    simpa using hnot
  have hcond' : (f'.suffix = ".py" && en.contains f'.stem) = false := by
    rw [hstem, hsuf]
    exact hcond
  intro pre
  induction pre with
  | nil =>
    intro post acc
    simp only [List.nil_append, loadFiles, hcond, hcond']
    simp
  | cons hd tl ih =>
    intro post acc
    simp only [List.cons_append, loadFiles]
    by_cases hc : (hd.suffix = ".py" && en.contains hd.stem) = true
    · simp only [if_pos hc]
      match hd.loadResult with
      | .error e => rfl
      | .ok none => exact ih post acc
      | .ok (some c) => exact ih post (insertReplace acc hd.stem c)
    · simp only [if_neg hc]
      exact ih post acc

/-- C5 (amended): (1) a registered criterion whose configured weight is
≤ 0 is never evaluated — the criteria loop's result does not depend on
its predicate at all; (2) a user criterion file is never loaded or
executed provided *no* settings key containing the substring `"_weight"`
whose text before the first `"_weight"` occurrence equals the file's stem
carries a positive integer — under that condition the loader's result
does not depend on the file's load effect.  (The enable scan matches
`"_weight"` as a substring, so a key such as `"test_weight2"` also
enables stem `"test"`; see the counterexample.) -/
theorem c5_disabled_never_evaluated :
    (∀ (settings : Settings) (x : List String) (pre post : List (String × Criterion))
      (name : String) (c₁ c₂ : Criterion) (m : List (String × Int)) (w : Int),
      lookupFirst settings (name ++ "_weight") = some (.int w) → w ≤ 0 →
      checkCriteria settings x (pre ++ (name, c₁) :: post) m
        = checkCriteria settings x (pre ++ (name, c₂) :: post) m) ∧
    (∀ (settings : Settings) (en : List String) (f f' : UserFile)
      (pre post : List UserFile) (acc : List (String × Criterion)),
      enabledCriteria settings = .ok en →
      (∀ p ∈ settings, strContains p.1 "_weight" = true →
        splitFirst p.1 "_weight" = f.stem → ∀ k : Int, p.2 = SettingValue.int k → k ≤ 0) →
      f'.stem = f.stem → f'.suffix = f.suffix →
      loadFiles en (pre ++ f :: post) acc = loadFiles en (pre ++ f' :: post) acc) := by
  constructor
  · intro settings x pre
    induction pre with
    | nil =>
      intro post name c₁ c₂ m w hw hle
      simp only [List.nil_append, checkCriteria]
      rw [hw]
      simp only [if_pos hle]
    | cons hd tl ih =>
      intro post name c₁ c₂ m w hw hle
      obtain ⟨n₀, cr₀⟩ := hd
      simp only [List.cons_append, checkCriteria]
      match lookupFirst settings (n₀ ++ "_weight") with
      | none => rfl
      | some (.str p) => rfl
      | some (.int w₀) =>
        simp only []
        by_cases h₀ : w₀ ≤ 0
        · simp only [if_pos h₀]
          exact ih post name c₁ c₂ m w hw hle
        · simp only [if_neg h₀]
          match cr₀.isFulfilled settings x with
          | .error msg => rfl
          | .ok true =>
            simp only []
            exact ih post name c₁ c₂ _ w hw hle
          | .ok false =>
            simp only []
            exact ih post name c₁ c₂ m w hw hle
  · intro settings en f f' pre post acc hen hweights hstem hsuf
    have hnot : f.stem ∉ en := by
      intro hmem
      obtain ⟨p, hp, hcont, hsplit, k, hked, hkpos⟩ :=
        enabledCriteria_mem_inv settings en f.stem hen hmem
      exact absurd hkpos (not_lt.mpr (hweights p hp hcont hsplit k hked))
    exact loadFiles_skip_indep en f f' hstem hsuf hnot pre post acc

/-- The user criterion file `test.py` whose module raises at import
time. -/
def fileBoom : UserFile := ⟨"test", ".py", .error "boom"⟩

/-- C5 (counterexample): with settings `test_weight = 0` and
`test_weight2 = 1`, the enable scan matches the substring `"_weight"`
inside `"test_weight2"` and enables stem `"test"`, so `test.py` *is*
loaded and executed although its own weight entry is 0 — and its
import-time failure makes `update()` fail with a `CriterionError`. -/
theorem c5_counterexample :
    enabledCriteria [("test_weight", .int 0), ("test_weight2", .int 1)] = .ok ["test"] ∧
    loadUserCriteria [("test_weight", .int 0), ("test_weight2", .int 1)] (some [fileBoom])
      = .error "boom" ∧
    updateStep (builtinCriteria rmFalse) (some [fileBoom]) 1 (some [])
        ⟨[("test_weight", .int 0), ("test_weight2", .int 1)], [], [], [], .UNKNOWN, 0⟩
      = .error (.criterionErr "unable to load user criteria: boom" none) :=
  ⟨rfl, rfl, rfl⟩

/-- C5 (witness): a zero-weight criterion's predicate (here one that
raises) does not influence the criteria loop, and a file whose stem has
only the zero-valued key `a_weight` is not consulted by the loader. -/
theorem c5_disabled_never_evaluated_witness :
    checkCriteria [("a_weight", .int 0)] ["pkg"]
        ([] ++ ("a", Criterion.mk (fun _ _ => .error "raise")) :: []) []
      = checkCriteria [("a_weight", .int 0)] ["pkg"]
        ([] ++ ("a", Criterion.mk (fun _ _ => .ok false)) :: []) [] ∧
    loadFiles [] ([] ++ (⟨"a", ".py", .error "raise"⟩ : UserFile) :: []) []
      = loadFiles [] ([] ++ (⟨"a", ".py", .ok none⟩ : UserFile) :: []) [] :=
  ⟨c5_disabled_never_evaluated.1 [("a_weight", .int 0)] ["pkg"] [] []
      "a" (Criterion.mk (fun _ _ => .error "raise")) (Criterion.mk (fun _ _ => .ok false))
      [] 0 rfl (by decide),
   c5_disabled_never_evaluated.2 [("a_weight", .int 0)] []
      ⟨"a", ".py", .error "raise"⟩ ⟨"a", ".py", .ok none⟩ [] [] [] rfl
      (by intro p hp hc hs k hk
          simp only [List.mem_cons, List.not_mem_nil, or_false] at hp
          subst hp
          simp only [SettingValue.int.injEq] at hk
          omega)
      rfl rfl⟩

/-! ### C9 — in-place mutation of the module criteria table -/

/-- C9: `update` binds the module-level `BUILTIN_CRITERIA` dict by
reference and merges loaded user criteria into it in place, so the
merged table is the table every later `Updates` instance and `update()`
call starts from: (1) an update that loads user criteria `u` leaves the
module table as `mergeInto g u`; (2) a user criterion overriding a
builtin name replaces that builtin in the table; (3) an update that
loads no user criteria (weight set to zero or file removed) keeps the
already-mutated table unchanged, so the override persists. -/
theorem c9_builtin_table_mutation :
    (∀ (g : List (String × Criterion)) (dir : Option (List UserFile)) (now : Nat)
      (x : Option (List String)) (s : UpdatesState)
      (g' : List (String × Criterion)) (s' : UpdatesState) (u : List (String × Criterion)),
      updateStep g dir now x s = .ok (g', s') →
      loadUserCriteria s.criteria_settings dir = .ok u → g' = mergeInto g u) ∧
    (∀ (g : List (String × Criterion)) (uc : Criterion) (name : String),
      name ∈ g.map Prod.fst →
      lookupFirst (mergeInto g [(name, uc)]) name = some uc) ∧
    (∀ (g : List (String × Criterion)) (now : Nat) (x : Option (List String))
      (s : UpdatesState) (g' : List (String × Criterion)) (s' : UpdatesState),
      updateStep g none now x s = .ok (g', s') → g' = g) := by
  refine ⟨?_, ?_, ?_⟩
  · intro g dir now x s g' s' u h hu
    obtain ⟨u₀, m, hu₀, hc, hr⟩ := updateStep_inv g dir now x s (g', s') h
    have he : u₀ = u := by
      rw [hu₀] at hu
      exact Except.ok.inj hu
    rw [← he]
    exact congrArg Prod.fst hr
  · intro g uc name hmem
    show lookupFirst (insertReplace g name uc) name = some uc
    exact lookupFirst_insertReplace_self g name uc
  · intro g now x s g' s' h
    obtain ⟨u₀, m, hu₀, hc, hr⟩ := updateStep_inv g none now x s (g', s') h
    have hu : u₀ = [] := by
      simp only [loadUserCriteria, Except.ok.injEq] at hu₀
      exact hu₀.symm
    have hfst := congrArg Prod.fst hr
    rw [hu] at hfst
    exact hfst

/-- A user criterion whose predicate is always true (used to override the
builtin `available`). -/
def ucTrue : Criterion := ⟨fun _ _ => .ok true⟩

/-- The user criteria file `available.py` exposing `ucTrue`. -/
def fileAvailOverride : UserFile := ⟨"available", ".py", .ok (some ucTrue)⟩

/-- Settings enabling only the (overridden) `available` criterion. -/
def overrideSettings : Settings :=
  [("available_weight", .int 1), ("count_weight", .int 0), ("critical_weight", .int 0)]

/-- C9 (witness): one update with `available.py` present merges the
override into the module table (replacing the builtin), and a following
update with the file gone still starts from the mutated table. -/
theorem c9_builtin_table_mutation_witness :
    ([("available", ucTrue), ("count", criterionCount), ("critical", criterionCritical rmFalse)]
        = mergeInto (builtinCriteria rmFalse) [("available", ucTrue)]) ∧
    (lookupFirst (mergeInto (builtinCriteria rmFalse) [("available", ucTrue)]) "available"
        = some ucTrue) ∧
    ([("available", ucTrue), ("count", criterionCount), ("critical", criterionCritical rmFalse)]
        = [("available", ucTrue), ("count", criterionCount), ("critical", criterionCritical rmFalse)]) :=
  ⟨c9_builtin_table_mutation.1 (builtinCriteria rmFalse) (some [fileAvailOverride]) 1
      (some []) ⟨overrideSettings, [], [], [], .UNKNOWN, 0⟩
      [("available", ucTrue), ("count", criterionCount), ("critical", criterionCritical rmFalse)]
      ⟨overrideSettings, [], [], [("available", 1)], .UNKNOWN, 1⟩
      [("available", ucTrue)] rfl rfl,
   c9_builtin_table_mutation.2.1 (builtinCriteria rmFalse) ucTrue "available" (by decide),
   c9_builtin_table_mutation.2.2
      [("available", ucTrue), ("count", criterionCount), ("critical", criterionCritical rmFalse)]
      2 (some [])
      ⟨overrideSettings, [], [], [("available", 1)], .UNKNOWN, 1⟩
      [("available", ucTrue), ("count", criterionCount), ("critical", criterionCritical rmFalse)]
      ⟨overrideSettings, [], [], [("available", 1)], .UNKNOWN, 2⟩ rfl⟩

/-! ### C10 — missing `_weight` settings entry -/

/-- C10: the criteria loop reads `criteria_settings[f"{name}_weight"]`
before the weight check and outside the `try` block, so once the loop
reaches a registered criterion with no `_weight` entry it raises a plain
`KeyError` — not a `CriterionError`, and the criterion is not skipped;
the config validator only demands weights for names that occur as the
`"_"`-prefix of some settings key, so the empty settings mapping passes
validation while `update()` on the builtin registry raises
`KeyError("available_weight")`. -/
theorem c10_missing_weight_keyerror :
    (∀ (settings : Settings) (x : List String) (pre : List (String × Criterion))
      (name : String) (crit : Criterion) (post : List (String × Criterion))
      (m m' : List (String × Int)),
      checkCriteria settings x pre m = .ok m' →
      lookupFirst settings (name ++ "_weight") = none →
      checkCriteria settings x (pre ++ (name, crit) :: post) m
        = .error (.keyError (name ++ "_weight"))) ∧
    criteriaMustHaveWeight [] = true ∧
    (∀ (rm : String → String → Bool) (now : Nat) (x : Option (List String)) (s : UpdatesState),
      s.criteria_settings = [] →
      updateStep (builtinCriteria rm) none now x s
        = .error (.keyError "available_weight")) := by
  refine ⟨?_, by decide, ?_⟩
  · intro settings x pre
    induction pre with
    | nil =>
      intro name crit post m m' h hnone
      simp only [List.nil_append, checkCriteria]
      rw [hnone]
    | cons hd tl ih =>
      intro name crit post m m' h hnone
      obtain ⟨n₀, cr₀⟩ := hd
      simp only [checkCriteria] at h
      simp only [List.cons_append, checkCriteria]
      match hw : lookupFirst settings (n₀ ++ "_weight") with
      | none => rw [hw] at h; exact absurd h (by simp)
      | some (.str p) => rw [hw] at h; exact absurd h (by simp)
      | some (.int w₀) =>
        rw [hw] at h
        simp only [] at h ⊢
        by_cases h₀ : w₀ ≤ 0
        · rw [if_pos h₀] at h
          simp only [if_pos h₀]
          exact ih name crit post m m' h hnone
        · rw [if_neg h₀] at h
          simp only [if_neg h₀]
          match hf : cr₀.isFulfilled settings x with
          | .error msg => rw [hf] at h; exact absurd h (by simp)
          | .ok true =>
            rw [hf] at h
            simp only [] at h ⊢
            exact ih name crit post _ m' h hnone
          | .ok false =>
            rw [hf] at h
            simp only [] at h ⊢
            exact ih name crit post m m' h hnone
  · intro rm now x s hset
    have hchk : checkCriteria s.criteria_settings (x.getD [])
        (mergeInto (builtinCriteria rm) []) s.matched_criteria
        = .error (.keyError "available_weight") := by
      rw [hset]
      rfl
    unfold updateStep
    simp only [loadUserCriteria]
    rw [hchk]

/-- C10 (witness): settings with only `available_weight = 0` let the
loop pass `available` and then fail with `KeyError("count_weight")` at
the next registered criterion; the empty mapping passes the validator
but makes `update()` raise `KeyError("available_weight")`. -/
theorem c10_missing_weight_keyerror_witness :
    (checkCriteria [("available_weight", .int 0)] ["pkg"]
        ([("available", criterionAvailable)] ++ ("count", criterionCount) :: []) []
      = .error (.keyError ("count" ++ "_weight"))) ∧
    criteriaMustHaveWeight [] = true ∧
    (updateStep (builtinCriteria rmFalse) none 1 (some []) ⟨[], [], [], [], .UNKNOWN, 0⟩
      = .error (.keyError "available_weight")) :=
  ⟨c10_missing_weight_keyerror.1 [("available_weight", .int 0)] ["pkg"]
      [("available", criterionAvailable)] "count" criterionCount [] [] [] rfl rfl,
   c10_missing_weight_keyerror.2.1,
   c10_missing_weight_keyerror.2.2 rmFalse 1 (some []) ⟨[], [], [], [], .UNKNOWN, 0⟩ rfl⟩

/-! ### C6 — no last_state attribute -/

/-- Settings disabling every builtin criterion. -/
def zeroWeightSettings : Settings :=
  [("available_weight", .int 0), ("count_weight", .int 0), ("critical_weight", .int 0)]

/-- C6: the `Updates` class of this `state.py` revision has no
`last_state` attribute: `__init__` (lines 159-189) sets no such field and
`update()` records nothing before recomputing.  Two snapshots that
differ only in the pre-call state map to *identical* snapshots under
`update`, so the pre-call state is not recoverable from the result — no
`last_state` is recorded anywhere.  (The repo's own `tests/test_main.py`
passes `last_state=...` to `Updates(...)`, which this `__init__` would
reject with a `TypeError`.) -/
theorem c6_no_last_state_recorded :
    updateStep (builtinCriteria rmFalse) none 5 (some [])
        ⟨zeroWeightSettings, [(0, .AVAILABLE_UPDATES)], [], [], .UNKNOWN, 0⟩
      = updateStep (builtinCriteria rmFalse) none 5 (some [])
        ⟨zeroWeightSettings, [(0, .AVAILABLE_UPDATES)], [], [], .OK, 0⟩ ∧
    State.UNKNOWN ≠ State.OK :=
  ⟨rfl, by decide⟩

/-! ### C3 — persist_state is not atomic -/

/-- C3: `persist_state` writes the temporary file in the system temp
directory (not necessarily the destination's filesystem) and then
`shutil.copy`s it onto the destination, which truncates the destination
in place and rewrites it chunk by chunk: a reader opening the file
mid-copy observes the empty file or a partial prefix (here `""` and
`"NEWJ"`), neither the old nor the new contents — contradicting the
claim and the method's own docstring.  The atomic-replace trace the spec
describes only ever exposes the old or the new contents.  (The code also
never creates missing parent directories of the destination.) -/
theorem c3_persist_partial_views :
    persistStateViews "OLDJSON" ["NEWJ", "SON2"] = ["OLDJSON", "", "NEWJ", "NEWJSON2"] ∧
    "NEWJ" ∈ persistStateViews "OLDJSON" ["NEWJ", "SON2"] ∧
    "NEWJ" ≠ "OLDJSON" ∧
    "NEWJ" ≠ "NEWJSON2" ∧
    atomicReplaceViews "OLDJSON" "NEWJSON2" = ["OLDJSON", "NEWJSON2"] := by
  refine ⟨rfl, ?_, ?_, ?_, rfl⟩ <;> decide

/-! ### C4 — read_state on the tagged-wrapper shape -/

/-- A state file whose enum and timestamp fields are all in the tagged
wrapper shape (the very shape `StateEncoder` of this revision writes). -/
def legacyStateJson : Json :=
  .jobj [("criteria_settings", .jobj []),
         ("thresholds", .jobj []),
         ("available_updates", .jarr []),
         ("matched_criteria", .jobj []),
         ("state", .jobj [("py-type", .jstr "State"), ("value", .jstr "OK")]),
         ("last_update", .jobj [("py-type", .jstr "datetime"),
            ("value", .jstr "1970-01-01T01:00:00+00:00")])]

/-- C4: `read_state` of this revision treats the tagged wrapper as its
*current* format: on a file whose enum and timestamp fields are all
wrapped it returns a decoded snapshot, not `None` (`None` is returned
only when the file is missing); invalid JSON text raises.  (The repo's
own test `test_read_state_handles_deprecated_custom_types` and the spec
expect `None` for the wrapped shape.) -/
theorem c4_read_state_wrapped :
    readState (.jsonText legacyStateJson)
        = .ok (some ⟨[], [], [], [], .OK, "1970-01-01T01:00:00+00:00"⟩) ∧
    (Except.ok (some (⟨[], [], [], [], .OK, "1970-01-01T01:00:00+00:00"⟩ : SiunStateModel))
        ≠ (.ok none : Except ReadErr (Option SiunStateModel))) ∧
    readState .invalidText = .error .jsonDecodeErr ∧
    readState .missing = .ok none := by
  refine ⟨rfl, ?_, rfl, rfl⟩
  intro h
  exact Option.noConfusion (Except.ok.inj h)

end Siun
